import Mathlib

/-!
# Automated train station: the station monitor of `train.c`

A small-step model of the four station operations of `src/train.c`
(`station_init`, `station_load_train`, `station_wait_for_train`,
`station_on_board`) running as POSIX threads: one train thread slot (the
driver of `main` starts a train only after the previous one has returned) and
a fixed family of passenger threads, each of which runs
`station_wait_for_train` and then `station_on_board`.  Every C statement of
the three blocking operations is one step; the scheduler is the list of
actions fed to `run`.

Threads and primitives:
* `pthread_mutex_lock` is enabled only while the mutex is free;
* `pthread_cond_wait` is two steps, "release the mutex and block" and, once
  woken, "re-acquire the mutex";
* `pthread_cond_signal` wakes one thread blocked on the condition if there is
  one (the scheduler picks it) and is lost otherwise; `pthread_cond_broadcast`
  wakes all of them.  Only the train ever waits on `passengers_seated_cond`
  and `train_is_full_cond`;
* with `spur = true` a blocked thread may also wake without any signal.

Integers: `wait_passengers`, `in_passengers` and `count` are C `int`s.  They
are modelled as `Int`: the two counters only ever move by one per passenger
thread, so they stay within the number of passenger threads, far below `2^31`;
`count` only decreases while it is positive.

Layout: the program and the quantities the proofs use, the example
schedules, the invariants (mutual exclusion and counters; the admission
handshake; one call without arrivals and its progress), then the claims
`C1` to `C10`.
-/

namespace TrainStation

/-! ## The program: state, threads, steps -/

/-- The shared `struct station` (train.c:8-15).  The mutex is its locked flag;
the wait sets of the three condition variables are the threads whose program
counter is at the corresponding blocked location. -/
structure station where
  wait_passengers : Int
  in_passengers : Int
  lock : Bool
  deriving DecidableEq, Repr

/-- Program counter of a passenger thread: the next statement it executes in
`station_wait_for_train` (lines 61-73) followed by `station_on_board`
(lines 80-90). -/
inductive PPc where
  /-- not yet in the station; next: line 63 `pthread_mutex_lock` -/
  | notArrived
  /-- holds the lock; next: line 65 `wait_passengers++` -/
  | wInc
  /-- holds the lock; next: line 66 `pthread_cond_wait` (release and block) -/
  | wWait
  /-- inside line 66, blocked on `train_arrived_cond` -/
  | wBlocked
  /-- inside line 66, woken, re-acquiring the lock -/
  | wReacq
  /-- holds the lock; next: line 67 `wait_passengers--` -/
  | wDec
  /-- holds the lock; next: line 68 `in_passengers++` -/
  | bInc
  /-- holds the lock; next: line 70 `pthread_mutex_unlock` -/
  | wUnlock
  /-- next: line 72 `pthread_cond_signal(passengers_seated_cond)` -/
  | wSignal
  /-- `station_wait_for_train` has returned and the passenger is moving on
  board; next: the call of `station_on_board` -/
  | boarding
  /-- `station_on_board` has been called; next: line 82 `pthread_mutex_lock` -/
  | oLock
  /-- holds the lock; next: line 84 `in_passengers--` -/
  | oDec
  /-- holds the lock; next: line 86 `pthread_mutex_unlock` -/
  | oUnlock
  /-- next: line 88, the test `in_passengers == 0` (lock not held) -/
  | oRead
  /-- next: line 89 `pthread_cond_broadcast(train_is_full_cond)` -/
  | oBroadcast
  /-- `station_on_board` has returned -/
  | seated
  deriving DecidableEq, Repr

/-- Program counter of the train thread slot: the next statement of
`station_load_train` (lines 35-51); the `Int` is the local `count`. -/
inductive TPc where
  /-- no call has been made yet -/
  | idle
  /-- next: line 38 `pthread_mutex_lock` -/
  | tLock (count : Int)
  /-- holds the lock; next: line 40, the `while` test -/
  | tTest (count : Int)
  /-- holds the lock; next: line 41 `pthread_cond_signal(train_arrived_cond)` -/
  | tSignal (count : Int)
  /-- holds the lock; next: line 42 `count--` -/
  | tDec (count : Int)
  /-- holds the lock; next: line 43 `pthread_cond_wait` (release and block) -/
  | tWait (count : Int)
  /-- inside line 43, blocked on `passengers_seated_cond` -/
  | tBlocked (count : Int)
  /-- inside line 43, woken, re-acquiring the lock -/
  | tReacq (count : Int)
  /-- holds the lock; next: line 46, the test `in_passengers > 0` -/
  | dTest
  /-- holds the lock; next: line 47 `pthread_cond_wait` (release and block) -/
  | dWait
  /-- inside line 47, blocked on `train_is_full_cond` -/
  | dBlocked
  /-- inside line 47, woken, re-acquiring the lock -/
  | dReacq
  /-- holds the lock; next: line 50 `pthread_mutex_unlock`, then return -/
  | tUnlock
  /-- the call has returned (line 51) -/
  | returned
  deriving DecidableEq, Repr

/-- A passenger thread: its program counter and a history counter `moves` of
how many times it has executed line 68 (`in_passengers++`, the end of its
waiting-to-boarding transition).  `moves` is never read by a step. -/
structure Passenger where
  pc : PPc
  moves : Nat
  deriving DecidableEq, Repr

/-- The whole system: the station, the train slot, the passenger threads, and
two history variables that no step reads: `seats` is the argument of the
current (or last) `station_load_train` call and `admitted` the number of
executions of line 68 since that call started. -/
structure State where
  st : station
  train : TPc
  pass : List Passenger
  seats : Int
  admitted : Nat
  deriving DecidableEq, Repr

/-- What the scheduler and the driver can do next. -/
inductive Action where
  /-- the driver calls `station_load_train(station, n)` (no call is active) -/
  | call (n : Int)
  /-- the train thread executes its next statement; when that statement is
  the signal of line 41, `w` is the blocked passenger the signal wakes -/
  | train (w : Nat)
  /-- passenger `i` executes its next statement -/
  | pass (i : Nat)
  /-- passenger `i` returns from its condition wait without a signal -/
  | spuriousP (i : Nat)
  /-- the train returns from its condition wait without a signal -/
  | spuriousT
  deriving DecidableEq, Repr

/-- Number of passenger threads whose program counter is `q`. -/
def cnt (q : PPc) : List Passenger → Nat
  | [] => 0
  | p :: l => (if p.pc = q then 1 else 0) + cnt q l

/-- `station_init` (train.c:18-26): both counters zero, mutex unlocked, no
thread waiting on a condition variable. -/
def station_init : station :=
  { wait_passengers := 0, in_passengers := 0, lock := false }

/-- The system `main` starts from: the initialised station, no train call yet
and `n` passenger threads that have not entered `station_wait_for_train`. -/
def initState (n : Nat) : State :=
  { st := station_init, train := .idle,
    pass := List.replicate n { pc := .notArrived, moves := 0 },
    seats := 0, admitted := 0 }

/-- `pthread_cond_signal(passengers_seated_cond)` seen from the train: it
leaves its wait of line 43 if it is blocked there; otherwise the signal is
lost. -/
def wakeSeated : TPc → TPc
  | .tBlocked c => .tReacq c
  | t => t

/-- `pthread_cond_broadcast(train_is_full_cond)` seen from the train: it
leaves its wait of line 47 if it is blocked there. -/
def wakeFull : TPc → TPc
  | .dBlocked => .dReacq
  | t => t

/-- One statement of passenger `i` (currently `p`) in
`station_wait_for_train` / `station_on_board`. -/
def passStep (s : State) (i : Nat) (p : Passenger) : Option State :=
  match p.pc with
  | .notArrived =>
      if s.st.lock then none
      else some { s with st := { s.st with lock := true },
                         pass := s.pass.set i { p with pc := .wInc } }
  | .wInc =>
      some { s with st := { s.st with wait_passengers := s.st.wait_passengers + 1 },
                    pass := s.pass.set i { p with pc := .wWait } }
  | .wWait =>
      some { s with st := { s.st with lock := false },
                    pass := s.pass.set i { p with pc := .wBlocked } }
  | .wBlocked => none
  | .wReacq =>
      if s.st.lock then none
      else some { s with st := { s.st with lock := true },
                         pass := s.pass.set i { p with pc := .wDec } }
  | .wDec =>
      some { s with st := { s.st with wait_passengers := s.st.wait_passengers - 1 },
                    pass := s.pass.set i { p with pc := .bInc } }
  | .bInc =>
      some { s with st := { s.st with in_passengers := s.st.in_passengers + 1 },
                    pass := s.pass.set i { pc := .wUnlock, moves := p.moves + 1 },
                    admitted := s.admitted + 1 }
  | .wUnlock =>
      some { s with st := { s.st with lock := false },
                    pass := s.pass.set i { p with pc := .wSignal } }
  | .wSignal =>
      some { s with train := wakeSeated s.train,
                    pass := s.pass.set i { p with pc := .boarding } }
  | .boarding =>
      some { s with pass := s.pass.set i { p with pc := .oLock } }
  | .oLock =>
      if s.st.lock then none
      else some { s with st := { s.st with lock := true },
                         pass := s.pass.set i { p with pc := .oDec } }
  | .oDec =>
      some { s with st := { s.st with in_passengers := s.st.in_passengers - 1 },
                    pass := s.pass.set i { p with pc := .oUnlock } }
  | .oUnlock =>
      some { s with st := { s.st with lock := false },
                    pass := s.pass.set i { p with pc := .oRead } }
  | .oRead =>
      if s.st.in_passengers = 0
      then some { s with pass := s.pass.set i { p with pc := .oBroadcast } }
      else some { s with pass := s.pass.set i { p with pc := .seated } }
  | .oBroadcast =>
      some { s with train := wakeFull s.train,
                    pass := s.pass.set i { p with pc := .seated } }
  | .seated => none

/-- Line 41, `pthread_cond_signal(train_arrived_cond)`: passenger `w` is
woken if it is blocked on the condition; a signal with no blocked passenger
has no effect; any other choice of `w` is not a behaviour. -/
def signalArrived (s : State) (c : Int) (w : Nat) : Option State :=
  match s.pass[w]? with
  | some p =>
      if p.pc = .wBlocked
      then some { s with train := .tDec c,
                         pass := s.pass.set w { p with pc := .wReacq } }
      else if cnt .wBlocked s.pass = 0 then some { s with train := .tDec c }
      else none
  | none =>
      if cnt .wBlocked s.pass = 0 then some { s with train := .tDec c } else none

/-- One statement of the train thread in `station_load_train`. -/
def trainStep (s : State) (w : Nat) : Option State :=
  match s.train with
  | .idle => none
  | .tLock c =>
      if s.st.lock then none
      else some { s with st := { s.st with lock := true }, train := .tTest c }
  | .tTest c =>
      if 0 < s.st.wait_passengers ∧ 0 < c
      then some { s with train := .tSignal c }
      else some { s with train := .dTest }
  | .tSignal c => signalArrived s c w
  | .tDec c => some { s with train := .tWait (c - 1) }
  | .tWait c =>
      some { s with st := { s.st with lock := false }, train := .tBlocked c }
  | .tBlocked _ => none
  | .tReacq c =>
      if s.st.lock then none
      else some { s with st := { s.st with lock := true }, train := .tTest c }
  | .dTest =>
      if 0 < s.st.in_passengers
      then some { s with train := .dWait }
      else some { s with train := .tUnlock }
  | .dWait =>
      some { s with st := { s.st with lock := false }, train := .dBlocked }
  | .dBlocked => none
  | .dReacq =>
      if s.st.lock then none
      else some { s with st := { s.st with lock := true }, train := .tUnlock }
  | .tUnlock =>
      some { s with st := { s.st with lock := false }, train := .returned }
  | .returned => none

/-- No `station_load_train` call is in progress. -/
def callable : TPc → Bool
  | .idle => true
  | .returned => true
  | _ => false

/-- One step of the system.  `spur` says whether condition waits may return
without a signal (`spuriousP`, `spuriousT`). -/
def step (spur : Bool) (s : State) : Action → Option State
  | .call n =>
      if callable s.train
      then some { s with train := .tLock n, seats := n, admitted := 0 }
      else none
  | .train w => trainStep s w
  | .pass i =>
      match s.pass[i]? with
      | some p => passStep s i p
      | none => none
  | .spuriousP i =>
      match s.pass[i]? with
      | some p =>
          if spur ∧ p.pc = .wBlocked
          then some { s with pass := s.pass.set i { p with pc := .wReacq } }
          else none
      | none => none
  | .spuriousT =>
      if spur then
        match s.train with
        | .tBlocked c => some { s with train := .tReacq c }
        | .dBlocked => some { s with train := .dReacq }
        | _ => none
      else none

/-- Run a schedule; `none` if some action is not enabled. -/
def run (spur : Bool) (s : State) : List Action → Option State
  | [] => some s
  | a :: as => (step spur s a).bind (fun s1 => run spur s1 as)

/-- States of the protocol started from `station_init` with `n` passenger
threads. -/
def Reach (spur : Bool) (s : State) : Prop :=
  ∃ n acts, run spur (initState n) acts = some s

/-- The action is a statement of the arrival part of `station_wait_for_train`
(line 63 or line 65) of some passenger. -/
def arrives (s : State) : Action → Bool
  | .pass i =>
      match s.pass[i]? with
      | some p => decide (p.pc = .notArrived) || decide (p.pc = .wInc)
      | none => false
  | _ => false

/-- The action starts a `station_load_train` call. -/
def isCall : Action → Bool
  | .call _ => true
  | _ => false

/-- Run a schedule in which no passenger arrives and no further train is
called, without spurious wakeups. -/
def runQuiet (s : State) : List Action → Option State
  | [] => some s
  | a :: as =>
      if arrives s a || isCall a then none
      else (step false s a).bind (fun s1 => runQuiet s1 as)

/-- Run a schedule in which no passenger arrives and no further train is
called; `spur` says whether condition waits may return without a signal.
With `spur = false` this is `runQuiet`. -/
def runNoArrival (spur : Bool) (s : State) : List Action → Option State
  | [] => some s
  | a :: as =>
      if arrives s a || isCall a then none
      else (step spur s a).bind (fun s1 => runNoArrival spur s1 as)

/-! ## Quantities used by the invariants -/

/-- One if the train thread holds the mutex at this program counter. -/
def holdsT : TPc → Nat
  | .tTest _ => 1
  | .tSignal _ => 1
  | .tDec _ => 1
  | .tWait _ => 1
  | .dTest => 1
  | .dWait => 1
  | .tUnlock => 1
  | _ => 0

/-- Number of passenger threads that hold the mutex. -/
def holdsP (l : List Passenger) : Nat :=
  cnt .wInc l + cnt .wWait l + cnt .wDec l + cnt .bInc l + cnt .wUnlock l
    + cnt .oDec l + cnt .oUnlock l

/-- Value of the history counter `moves` at each program counter: one once
line 68 has been executed. -/
def movedBy : PPc → Nat
  | .wUnlock => 1
  | .wSignal => 1
  | .boarding => 1
  | .oLock => 1
  | .oDec => 1
  | .oUnlock => 1
  | .oRead => 1
  | .oBroadcast => 1
  | .seated => 1
  | _ => 0

/-- Invariants that hold with or without spurious wakeups: mutual exclusion
and the meaning of the two counters. -/
structure Base (s : State) : Prop where
  mutex : holdsP s.pass + holdsT s.train = (if s.st.lock then 1 else 0)
  waitEq : s.st.wait_passengers
      = ((cnt .wWait s.pass + cnt .wBlocked s.pass + cnt .wReacq s.pass
          + cnt .wDec s.pass : Nat) : Int)
  inEq : s.st.in_passengers
      = ((cnt .wUnlock s.pass + cnt .wSignal s.pass + cnt .boarding s.pass
          + cnt .oLock s.pass + cnt .oDec s.pass : Nat) : Int)
  moved : ∀ p ∈ s.pass, p.moves = movedBy p.pc

/-- One where a passenger woken by the signal of line 41 may not yet have
signalled back: after the signal and until the wait of line 43 is left. -/
def hsA : TPc → Nat
  | .tDec _ => 1
  | .tWait _ => 1
  | .tBlocked _ => 1
  | _ => 0

/-- One while the train is blocked in the wait of line 43. -/
def hsB : TPc → Nat
  | .tBlocked _ => 1
  | _ => 0

/-- One when the next train statement is the signal of line 41. -/
def isSig : TPc → Nat
  | .tSignal _ => 1
  | _ => 0

/-- Signals the train can still issue in this call: the local `count`, less
one between the signal of line 41 and the `count--` of line 42. -/
def rem : TPc → Int
  | .tLock c => c
  | .tTest c => c
  | .tSignal c => c
  | .tDec c => c - 1
  | .tWait c => c
  | .tBlocked c => c
  | .tReacq c => c
  | _ => 0

/-- Lower bound of `rem`: positive once the loop test has passed. -/
def low : TPc → Int
  | .tSignal _ => 1
  | _ => 0

/-- One when the next train statement is the wait of line 47. -/
def isDW : TPc → Int
  | .dWait => 1
  | _ => 0

/-- One while the train is blocked in the wait of line 47. -/
def isDB : TPc → Int
  | .dBlocked => 1
  | _ => 0

/-- Invariants of the protocol without spurious wakeups. -/
structure Hand (s : State) : Prop where
  base : Base s
  one : cnt .wReacq s.pass + cnt .wDec s.pass + cnt .bInc s.pass
      + cnt .wUnlock s.pass + cnt .wSignal s.pass = hsA s.train
  blk : cnt .wDec s.pass + cnt .bInc s.pass + cnt .wUnlock s.pass
      + cnt .wSignal s.pass ≤ hsB s.train
  sig : isSig s.train ≤ cnt .wBlocked s.pass
  capLe : 0 ≤ s.seats →
      (s.admitted : Int)
        + ((cnt .wReacq s.pass + cnt .wDec s.pass + cnt .bInc s.pass : Nat) : Int)
        + rem s.train ≤ s.seats
  capLow : 0 ≤ s.seats → low s.train ≤ rem s.train
  drW : isDW s.train ≤ s.st.in_passengers
  drB : isDB s.train ≤ s.st.in_passengers
      + ((cnt .oUnlock s.pass + cnt .oRead s.pass + cnt .oBroadcast s.pass : Nat) : Int)

/-- The train is in the admission phase of its call: lines 38 to 43. -/
def inLoop : TPc → Bool
  | .tLock _ => true
  | .tTest _ => true
  | .tSignal _ => true
  | .tDec _ => true
  | .tWait _ => true
  | .tBlocked _ => true
  | .tReacq _ => true
  | _ => false

/-- The train has left the admission loop: lines 46 to 51. -/
def postLoop : TPc → Bool
  | .dTest => true
  | .dWait => true
  | .dBlocked => true
  | .dReacq => true
  | .tUnlock => true
  | .returned => true
  | _ => false

/-- Invariant of one call `station_load_train(station, N)` that started with
`wait_passengers = W`, along a schedule without arrivals. -/
structure Exact (N W : Int) (s : State) : Prop where
  hand : Hand s
  seatsEq : s.seats = N
  nonneg : 0 ≤ N
  total : s.st.wait_passengers + (s.admitted : Int) + (cnt .bInc s.pass : Int) = W
  loop : inLoop s.train = true →
      (s.admitted : Int)
        + ((cnt .wReacq s.pass + cnt .wDec s.pass + cnt .bInc s.pass : Nat) : Int)
        + rem s.train = N
  post : postLoop s.train = true → (s.admitted : Int) = min N W

/-- The train is between the exit of the admission loop and its return:
lines 46 to 50. -/
def draining : TPc → Bool
  | .dTest => true
  | .dWait => true
  | .dBlocked => true
  | .dReacq => true
  | .tUnlock => true
  | _ => false

/-- A passenger is between its wake-up inside line 66 and the end of
`station_wait_for_train` (line 72 not yet executed). -/
def admitting : PPc → Bool
  | .wReacq => true
  | .wDec => true
  | .bInc => true
  | .wUnlock => true
  | .wSignal => true
  | _ => false

/-- Where a passenger stands in the accounting of the two counters. -/
inductive Phase where
  /-- line 65 (`wait_passengers++`) not yet executed -/
  | notArrived
  /-- line 65 executed, line 67 (`wait_passengers--`) not yet -/
  | waiting
  /-- line 67 executed, line 68 (`in_passengers++`) not yet -/
  | transit
  /-- line 68 executed, line 84 (`in_passengers--`) not yet -/
  | boarding
  /-- line 84 executed -/
  | seated
  deriving DecidableEq, Repr

/-- The phase of a passenger, from its program counter. -/
def phase : PPc → Phase
  | .notArrived => .notArrived
  | .wInc => .notArrived
  | .wWait => .waiting
  | .wBlocked => .waiting
  | .wReacq => .waiting
  | .wDec => .waiting
  | .bInc => .transit
  | .wUnlock => .boarding
  | .wSignal => .boarding
  | .boarding => .boarding
  | .oLock => .boarding
  | .oDec => .boarding
  | .oUnlock => .seated
  | .oRead => .seated
  | .oBroadcast => .seated
  | .seated => .seated

/-- Number of passengers in phase `ph`. -/
def inPhase (ph : Phase) : List Passenger → Nat
  | [] => 0
  | p :: l => (if phase p.pc = ph then 1 else 0) + inPhase ph l

/-- Number of passengers that have arrived: line 65 executed. -/
def arrived : List Passenger → Nat
  | [] => 0
  | p :: l => (if phase p.pc = .notArrived then 0 else 1) + arrived l

/-- Statements passenger threads at this program counter still have to
execute, at most. -/
def prank : PPc → Nat
  | .notArrived => 15
  | .wInc => 14
  | .wWait => 13
  | .wBlocked => 12
  | .wReacq => 11
  | .wDec => 10
  | .bInc => 9
  | .wUnlock => 8
  | .wSignal => 7
  | .boarding => 6
  | .oLock => 5
  | .oDec => 4
  | .oUnlock => 3
  | .oRead => 2
  | .oBroadcast => 1
  | .seated => 0

/-- Sum of `prank` over the passenger threads. -/
def psum : List Passenger → Nat
  | [] => 0
  | p :: l => prank p.pc + psum l

/-- Statements the train still has to execute in its call, at most. -/
def trank : TPc → Int
  | .idle => 0
  | .tLock c => 6 * c + 7
  | .tTest c => 6 * c + 6
  | .tSignal c => 6 * c + 5
  | .tDec c => 6 * c + 4
  | .tWait c => 6 * c + 9
  | .tBlocked c => 6 * c + 8
  | .tReacq c => 6 * c + 7
  | .dTest => 5
  | .dWait => 4
  | .dBlocked => 3
  | .dReacq => 2
  | .tUnlock => 1
  | .returned => 0

/-- Bound on the number of statements left in the system. -/
def stepsLeft (s : State) : Int :=
  (psum s.pass : Int) + trank s.train

/-- A passenger at this program counter can execute its next statement
whatever the state of the mutex, and the statement is not part of an
arrival. -/
def alwaysOn : PPc → Bool
  | .wWait => true
  | .wDec => true
  | .bInc => true
  | .wUnlock => true
  | .wSignal => true
  | .boarding => true
  | .oDec => true
  | .oUnlock => true
  | .oRead => true
  | .oBroadcast => true
  | _ => false

/-- Some action other than an arrival or a new call is enabled. -/
def CanStep (s : State) : Prop :=
  ∃ a, (arrives s a || isCall a) = false ∧ (step false s a).isSome = true

/-- Invariant of one call along a schedule without arrivals, with what is
needed for its progress: no passenger is stopped between lines 63 and 65, and
the call has been made. -/
structure Live (N W : Int) (s : State) : Prop where
  exact : Exact N W s
  noInc : cnt .wInc s.pass = 0
  active : s.train ≠ .idle

/-! ## Schedules and the states they reach -/

/-- Passenger `i` enters `station_wait_for_train`: lines 63, 65, 66 (it ends
blocked on `train_arrived_cond`). -/
def arrive (i : Nat) : List Action :=
  [.pass i, .pass i, .pass i]

/-- One round of the admission loop, the train being at the loop test: lines
40, 41 (waking passenger `i`), 42, 43 by the train, then passenger `i` runs
lines 66 (wake), 67, 68, 70, 72, then the train leaves its wait of line 43. -/
def admitRound (i : Nat) : List Action :=
  [.train i, .train i, .train i, .train i,
   .pass i, .pass i, .pass i, .pass i, .pass i,
   .train i]

/-- Passenger `i` calls `station_on_board` and runs it up to and including
the test of line 88: the call, then lines 82, 84, 86, 88. -/
def onBoard (i : Nat) : List Action :=
  [.pass i, .pass i, .pass i, .pass i, .pass i]

/-- Schedule in which two passengers arrive, a train with two seats admits
both, the first passenger reads `in_passengers == 0` (line 88) before the
second is admitted and broadcasts (line 89) after the train has started its
wait of line 47. -/
def earlyTrace : List Action :=
  arrive 0 ++ arrive 1 ++
  [.call 2, .train 0] ++               -- the call and line 38
  admitRound 0 ++
  [.train 1, .train 1, .train 1, .train 1] ++  -- lines 40, 41 (wakes 1), 42, 43
  onBoard 0 ++                         -- passenger 0 reads in_passengers = 0
  [.pass 1, .pass 1, .pass 1, .pass 1, .pass 1] ++  -- 66 wake, 67, 68, 70, 72
  [.train 0, .train 0, .train 0, .train 0] ++  -- 43 wake, 40, 46, 47
  [.pass 0] ++                         -- passenger 0: line 89 broadcast
  [.train 0, .train 0]                 -- 47 wake, 50 and return

/-- Three passengers wait, a train with one seat admits passenger 0, which
then boards; the train drains and returns. -/
def oneSeatTrace : List Action :=
  arrive 0 ++ arrive 1 ++ arrive 2 ++
  [.call 1, .train 0] ++ admitRound 0 ++
  [.train 0, .train 0, .train 0] ++        -- lines 40, 46, 47
  onBoard 0 ++ [.pass 0] ++                -- the call, lines 82-88, the broadcast
  [.train 0, .train 0]                     -- 47 wake, 50 and return

/-- State reached by `oneSeatTrace`. -/
def oneSeatState : State :=
  { st := { wait_passengers := 2, in_passengers := 0, lock := false },
    train := .returned,
    pass := [{ pc := .seated, moves := 1 }, { pc := .wBlocked, moves := 0 },
             { pc := .wBlocked, moves := 0 }],
    seats := 1, admitted := 1 }

/-- Schedule reaching `midState`. -/
def midTrace : List Action :=
  arrive 0 ++ arrive 1 ++
  [.call 1, .train 0, .train 0, .train 0, .train 0, .train 0, .pass 0, .pass 0]

/-- State in which passenger 0 has been woken by the train's signal and has
executed line 67 but not yet line 68; passenger 1 is still blocked. -/
def midState : State :=
  { st := { wait_passengers := 1, in_passengers := 0, lock := true },
    train := .tBlocked 0,
    pass := [{ pc := .bInc, moves := 0 }, { pc := .wBlocked, moves := 0 }],
    seats := 1, admitted := 0 }

/-- State after passenger 0 has called `station_on_board` in `drainState`. -/
def drainNext : State :=
  { st := { wait_passengers := 1, in_passengers := 1, lock := false },
    train := .dBlocked,
    pass := [{ pc := .oLock, moves := 1 }, { pc := .wBlocked, moves := 0 }],
    seats := 1, admitted := 1 }

/-- Schedule reaching `drainState`. -/
def drainTrace : List Action :=
  arrive 0 ++ arrive 1 ++ [.call 1, .train 0] ++ admitRound 0 ++
  [.train 0, .train 0, .train 0]

/-- State in the drain: passenger 0 has been admitted by a one-seat train and
has not yet called `station_on_board`; the train is blocked on line 47. -/
def drainState : State :=
  { st := { wait_passengers := 1, in_passengers := 1, lock := false },
    train := .dBlocked,
    pass := [{ pc := .boarding, moves := 1 }, { pc := .wBlocked, moves := 0 }],
    seats := 1, admitted := 1 }

/-- Schedule with a spurious wakeup: the only passenger arrives, blocks on
line 66, is woken without any signal and runs lines 67, 68, 70, 72; no train
was ever called. -/
def spuriousTrace : List Action :=
  arrive 0 ++ [.spuriousP 0, .pass 0, .pass 0, .pass 0, .pass 0, .pass 0]

/-- Five passengers blocked on line 66 and a train that has just been called
with no free seat. -/
def fiveWaiting : State :=
  { st := { wait_passengers := 5, in_passengers := 0, lock := false },
    train := .tLock 0,
    pass := List.replicate 5 { pc := .wBlocked, moves := 0 },
    seats := 0, admitted := 0 }

/-- Ten passengers blocked on line 66, no train called yet. -/
def tenWaiting : State :=
  { st := { wait_passengers := 10, in_passengers := 0, lock := false },
    train := .idle,
    pass := List.replicate 10 { pc := .wBlocked, moves := 0 },
    seats := 0, admitted := 0 }

/-- Schedule reaching `tenWaiting`: the ten passengers arrive one after the
other. -/
def tenArrivals : List Action :=
  arrive 0 ++ arrive 1 ++ arrive 2 ++ arrive 3 ++ arrive 4 ++ arrive 5 ++ arrive 6
    ++ arrive 7 ++ arrive 8 ++ arrive 9

/-- Schedule of the call `station_load_train(station, 3)` from `tenWaiting`,
after the call action: the train admits passengers 0, 1 and 2, leaves the
loop and blocks on line 47; the three passengers board, the last one
broadcasting; the train returns. -/
def tenLoad : List Action :=
  [.train 0] ++ admitRound 0 ++ admitRound 1 ++ admitRound 2 ++
  [.train 0, .train 0, .train 0] ++          -- lines 40, 46, 47
  onBoard 0 ++ onBoard 1 ++ onBoard 2 ++ [.pass 2] ++
  [.train 0, .train 0]                       -- 47 wake, 50 and return

/-- State reached from `tenWaiting` by the call with three seats and
`tenLoad`: three passengers seated, seven still blocked. -/
def tenDone : State :=
  { st := { wait_passengers := 7, in_passengers := 0, lock := false },
    train := .returned,
    pass := List.replicate 3 { pc := .seated, moves := 1 }
              ++ List.replicate 7 { pc := .wBlocked, moves := 0 },
    seats := 3, admitted := 3 }

/-- Two passengers blocked on line 66, no train called yet. -/
def twoWaiting : State :=
  { st := { wait_passengers := 2, in_passengers := 0, lock := false },
    train := .idle,
    pass := List.replicate 2 { pc := .wBlocked, moves := 0 },
    seats := 0, admitted := 0 }

/-- Schedule of the call `station_load_train(station, 1)` from `twoWaiting`,
after the call action, with one spurious wakeup: the train signals
passenger 0 and blocks on line 43; the wait of passenger 1 on line 66
returns without a signal; both passengers run lines 66 (re-acquire), 67, 68,
70, 72; the train leaves the loop and blocks on line 47; both passengers
board, the second one broadcasting; the train returns. -/
def spuriousLoad : List Action :=
  [.train 0, .train 0, .train 0, .train 0, .train 0] ++  -- lines 38, 40, 41, 42, 43
  [.spuriousP 1] ++
  [.pass 0, .pass 0, .pass 0, .pass 0, .pass 0] ++       -- 66 wake, 67, 68, 70, 72
  [.pass 1, .pass 1, .pass 1, .pass 1, .pass 1] ++       -- 66 wake, 67, 68, 70, 72
  [.train 0, .train 0, .train 0, .train 0] ++            -- 43 wake, 40, 46, 47
  onBoard 0 ++ onBoard 1 ++ [.pass 1] ++
  [.train 0, .train 0]                                   -- 47 wake, 50 and return

/-- State reached from `twoWaiting` by the call with one seat and
`spuriousLoad`: both passengers seated although the train had one seat. -/
def twoSeated : State :=
  { st := { wait_passengers := 0, in_passengers := 0, lock := false },
    train := .returned,
    pass := List.replicate 2 { pc := .seated, moves := 1 },
    seats := 1, admitted := 2 }

/-- Schedule up to the decrement of passenger 0: two passengers wait, a
train with two seats admits both and blocks on line 47, passenger 0 calls
`station_on_board` and executes lines 82 and 84. -/
def staleTraceA : List Action :=
  arrive 0 ++ arrive 1 ++ [.call 2, .train 0] ++ admitRound 0 ++ admitRound 1 ++
  [.train 0, .train 0, .train 0] ++      -- lines 40, 46, 47
  [.pass 0, .pass 0, .pass 0]            -- passenger 0: the call, lines 82, 84

/-- Continuation: passenger 0 unlocks (86); passenger 1 calls
`station_on_board` and runs lines 82, 84, 86; passenger 0 then executes the
test of line 88. -/
def staleTraceB : List Action :=
  [.pass 0, .pass 1, .pass 1, .pass 1, .pass 1, .pass 0]

/-- Schedule in which passenger 0's decrement brings `in_passengers` to 0 and
passenger 1 is admitted before passenger 0 executes the test of line 88. -/
def missedTrace : List Action :=
  arrive 0 ++ arrive 1 ++ [.call 2, .train 0] ++ admitRound 0 ++
  [.train 1, .train 1, .train 1, .train 1] ++    -- lines 40, 41 (wakes 1), 42, 43
  [.pass 0, .pass 0, .pass 0, .pass 0] ++        -- passenger 0: the call, 82, 84, 86
  [.pass 1, .pass 1, .pass 1, .pass 1, .pass 1]  -- passenger 1: 66 wake, 67, 68, 70, 72

/-- Schedule of `earlyTrace` with a third passenger waiting: three passengers
wait, a train with two seats admits passengers 0 and 1; passenger 1 calls
`station_on_board` but has not yet executed line 82 when the train returns
on the late broadcast of passenger 0. -/
def leakTrace : List Action :=
  arrive 0 ++ arrive 1 ++ arrive 2 ++
  [.call 2, .train 0] ++ admitRound 0 ++
  [.train 1, .train 1, .train 1, .train 1] ++  -- lines 40, 41 (wakes 1), 42, 43
  onBoard 0 ++                                 -- passenger 0 reads in_passengers = 0
  [.pass 1, .pass 1, .pass 1, .pass 1, .pass 1] ++  -- 66 wake, 67, 68, 70, 72
  [.train 0, .train 0, .train 0, .train 0] ++  -- 43 wake, 40, 46, 47
  [.pass 1] ++                                 -- passenger 1 calls station_on_board
  [.pass 0] ++                                 -- passenger 0: line 89 broadcast
  [.train 0, .train 0]                         -- 47 wake, 50 and return

/-- Continuation of `leakTrace`: passenger 1 runs lines 82 to 89. -/
def leakRest : List Action :=
  [.pass 1, .pass 1, .pass 1, .pass 1, .pass 1]

/-! ## Counting passengers by program counter -/

theorem cnt_ge {l : List Passenger} {i : Nat} {a : Passenger}
    (h : l[i]? = some a) (q : PPc) : (if a.pc = q then 1 else 0) ≤ cnt q l := by
  induction l generalizing i with
  | nil => simp at h
  | cons x l ih =>
    cases i with
    | zero =>
      simp at h
      subst h
      simp only [cnt]
      omega
    | succ j =>
      simp at h
      have := ih h
      simp only [cnt]
      omega

theorem cnt_set_eq {l : List Passenger} {i : Nat} {a : Passenger}
    (h : l[i]? = some a) (q : PPc) (b : Passenger) :
    cnt q (l.set i b)
      = cnt q l + (if b.pc = q then 1 else 0) - (if a.pc = q then 1 else 0) := by
  induction l generalizing i with
  | nil => simp at h
  | cons x l ih =>
    cases i with
    | zero =>
      simp at h
      subst h
      simp only [List.set_cons_zero, cnt]
      split <;> split <;> omega
    | succ j =>
      simp at h
      have := cnt_ge h q
      simp only [List.set_cons_succ, cnt, ih h]
      omega

theorem cnt_pos {l : List Passenger} {i : Nat} {a : Passenger}
    (h : l[i]? = some a) : 1 ≤ cnt a.pc l := by
  induction l generalizing i with
  | nil => simp at h
  | cons x l ih =>
    cases i with
    | zero =>
      simp at h
      subst h
      simp [cnt]
    | succ j =>
      simp at h
      have := ih h
      simp only [cnt]
      omega

theorem cnt_replicate_ne (q : PPc) (n : Nat) (p : Passenger) (h : p.pc ≠ q) :
    cnt q (List.replicate n p) = 0 := by
  induction n with
  | zero => rfl
  | succ k ih => simp [List.replicate_succ, cnt, ih, h]

theorem cnt_admitting {l : List Passenger} {p : Passenger} (hp : p ∈ l)
    (ha : admitting p.pc = true) :
    1 ≤ cnt .wReacq l + cnt .wDec l + cnt .bInc l + cnt .wUnlock l + cnt .wSignal l := by
  obtain ⟨i, hi⟩ := List.getElem?_of_mem hp
  have hpos := cnt_pos hi
  cases hpc : p.pc <;> rw [hpc] at ha hpos <;> simp [admitting] at ha <;> omega

theorem inPhase_waiting (l : List Passenger) :
    inPhase .waiting l = cnt .wWait l + cnt .wBlocked l + cnt .wReacq l + cnt .wDec l := by
  induction l with
  | nil => rfl
  | cons p l ih =>
    obtain ⟨pc, m⟩ := p
    cases pc <;> simp +decide [inPhase, cnt, phase, ih] <;> omega

theorem inPhase_boarding (l : List Passenger) :
    inPhase .boarding l
      = cnt .wUnlock l + cnt .wSignal l + cnt .boarding l + cnt .oLock l
          + cnt .oDec l := by
  induction l with
  | nil => rfl
  | cons p l ih =>
    obtain ⟨pc, m⟩ := p
    cases pc <;> simp +decide [inPhase, cnt, phase, ih] <;> omega

theorem inPhase_transit (l : List Passenger) : inPhase .transit l = cnt .bInc l := by
  induction l with
  | nil => rfl
  | cons p l ih =>
    obtain ⟨pc, m⟩ := p
    cases pc <;> simp +decide [inPhase, cnt, phase, ih]

theorem inPhase_total (l : List Passenger) :
    inPhase .notArrived l + inPhase .waiting l + inPhase .transit l
      + inPhase .boarding l + inPhase .seated l = l.length := by
  induction l with
  | nil => rfl
  | cons p l ih =>
    obtain ⟨pc, m⟩ := p
    cases pc <;> simp +decide [inPhase, phase] <;> omega

theorem arrived_eq (l : List Passenger) :
    arrived l = inPhase .waiting l + inPhase .transit l + inPhase .boarding l
      + inPhase .seated l := by
  induction l with
  | nil => rfl
  | cons p l ih =>
    obtain ⟨pc, m⟩ := p
    cases pc <;> simp +decide [arrived, inPhase, phase, ih] <;> omega

/-! ## Mutual exclusion and the meaning of the counters -/

theorem base_init (n : Nat) : Base (initState n) := by
  constructor
  · simp [initState, station_init, holdsP, holdsT, cnt_replicate_ne]
  · simp [initState, station_init, cnt_replicate_ne]
  · simp [initState, station_init, cnt_replicate_ne]
  · intro p hp
    simp [initState] at hp
    rw [hp.2]
    rfl

theorem wakeSeated_holdsT (t : TPc) : holdsT (wakeSeated t) = holdsT t := by
  cases t <;> rfl

theorem wakeFull_holdsT (t : TPc) : holdsT (wakeFull t) = holdsT t := by
  cases t <;> rfl

theorem moved_set {l : List Passenger} {i : Nat} {b : Passenger}
    (h : ∀ p ∈ l, p.moves = movedBy p.pc) (hb : b.moves = movedBy b.pc) :
    ∀ p ∈ l.set i b, p.moves = movedBy p.pc := by
  intro p hp
  rcases List.mem_or_eq_of_mem_set hp with h1 | h1
  · exact h p h1
  · rw [h1]; exact hb

theorem base_pass {s s1 : State} {i : Nat} {p : Passenger} (h : Base s)
    (hi : s.pass[i]? = some p) (hs : passStep s i p = some s1) : Base s1 := by
  obtain ⟨hm, hw, hin, hmv⟩ := h
  have hpos := cnt_pos hi
  have hpm := hmv p (List.getElem?_mem hi)
  unfold holdsP at hm
  unfold passStep at hs
  by_cases hlk : s.st.lock = true <;>
    simp only [hlk, if_true, if_false, Bool.false_eq_true] at hm <;>
  split at hs <;> rename_i hpc <;> rw [hpc] at hpos hpm <;> (try split at hs) <;>
    simp only [Option.some.injEq, reduceCtorEq] at hs <;> subst hs <;>
    refine ⟨?_, ?_, ?_, moved_set hmv (by simpa [movedBy] using hpm)⟩ <;>
    simp +decide only [holdsP, cnt_set_eq hi, hpc, hlk, if_true, if_false,
      wakeSeated_holdsT, wakeFull_holdsT, reduceCtorEq, Bool.false_eq_true] <;>
    omega

theorem base_signal {s s1 : State} {c : Int} {w : Nat} (h : Base s)
    (ht : s.train = .tSignal c) (hs : signalArrived s c w = some s1) : Base s1 := by
  obtain ⟨hm, hw, hin, hmv⟩ := h
  unfold holdsP at hm
  rw [ht] at hm
  unfold signalArrived at hs
  split at hs
  · rename_i p hi
    have hpos := cnt_pos hi
    have hpm := hmv p (List.getElem?_mem hi)
    split at hs
    · rename_i hpc
      rw [hpc] at hpos hpm
      simp only [Option.some.injEq] at hs
      subst hs
      refine ⟨?_, ?_, ?_, moved_set hmv (by simpa [movedBy] using hpm)⟩ <;>
        simp +decide only [holdsP, holdsT, cnt_set_eq hi, hpc, if_true, if_false,
          reduceCtorEq] at hm ⊢ <;>
        omega
    · split at hs <;> simp only [Option.some.injEq, reduceCtorEq] at hs
      subst hs
      exact ⟨by simpa [holdsP, holdsT] using hm, hw, hin, hmv⟩
  · split at hs <;> simp only [Option.some.injEq, reduceCtorEq] at hs
    subst hs
    exact ⟨by simpa [holdsP, holdsT] using hm, hw, hin, hmv⟩

theorem base_train {s s1 : State} {w : Nat} (h : Base s)
    (hs : trainStep s w = some s1) : Base s1 := by
  unfold trainStep at hs
  split at hs <;> rename_i ht
  case h_4 => exact base_signal h ht hs
  all_goals
    obtain ⟨hm, hw, hin, hmv⟩ := h
    unfold holdsP at hm
    rw [ht] at hm
    by_cases hlk : s.st.lock = true <;>
      simp only [hlk, if_true, if_false, Bool.false_eq_true, holdsT] at hm <;>
      (try split at hs) <;>
      simp only [Option.some.injEq, reduceCtorEq] at hs <;> subst hs <;>
      refine ⟨?_, ?_, ?_, hmv⟩ <;>
      simp +decide only [holdsP, holdsT, hlk, if_true, if_false, reduceCtorEq,
        Bool.false_eq_true] <;>
      omega

theorem base_step {spur : Bool} {s s1 : State} {a : Action} (h : Base s)
    (hs : step spur s a = some s1) : Base s1 := by
  cases a with
  | call n =>
    simp only [step, Option.ite_none_right_eq_some, Option.some.injEq] at hs
    obtain ⟨hc, hs⟩ := hs
    subst hs
    obtain ⟨hm, hw, hin, hmv⟩ := h
    refine ⟨?_, hw, hin, hmv⟩
    have h0 : holdsT s.train = 0 := by
      cases ht : s.train <;> simp [ht, callable] at hc <;> rfl
    rw [h0] at hm
    simpa [holdsT] using hm
  | train w => exact base_train h hs
  | pass i =>
    simp only [step] at hs
    split at hs
    · rename_i p hi
      exact base_pass h hi hs
    · simp at hs
  | spuriousP i =>
    simp only [step] at hs
    split at hs
    · rename_i p hi
      simp only [Option.ite_none_right_eq_some, Option.some.injEq] at hs
      obtain ⟨⟨_, hpc⟩, hs⟩ := hs
      subst hs
      obtain ⟨hm, hw, hin, hmv⟩ := h
      have hpos := cnt_pos hi
      have hpm := hmv p (List.getElem?_mem hi)
      rw [hpc] at hpos hpm
      unfold holdsP at hm
      refine ⟨?_, ?_, ?_, moved_set hmv (by simpa [movedBy] using hpm)⟩ <;>
        simp +decide only [holdsP, cnt_set_eq hi, hpc, if_true, if_false,
          reduceCtorEq] <;>
        omega
    · simp at hs
  | spuriousT =>
    simp only [step] at hs
    split at hs
    · obtain ⟨hm, hw, hin, hmv⟩ := h
      split at hs <;> rename_i ht <;>
        simp only [Option.some.injEq, reduceCtorEq] at hs <;> subst hs <;>
        rw [ht] at hm <;>
        exact ⟨by simpa [holdsT] using hm, hw, hin, hmv⟩
    · simp at hs

theorem base_run {spur : Bool} {acts : List Action} {s s1 : State} (h : Base s)
    (hs : run spur s acts = some s1) : Base s1 := by
  induction acts generalizing s with
  | nil =>
    simp only [run, Option.some.injEq] at hs
    subst hs
    exact h
  | cons a as ih =>
    simp only [run, Option.bind_eq_some] at hs
    obtain ⟨s2, h2, h3⟩ := hs
    exact ih (base_step h h2) h3

theorem base_reach {spur : Bool} {s : State} (h : Reach spur s) : Base s := by
  obtain ⟨n, acts, hr⟩ := h
  exact base_run (base_init n) hr

/-! ## The admission handshake (no spurious wakeups) -/

theorem hand_init (n : Nat) : Hand (initState n) := by
  refine ⟨base_init n, ?_, ?_, ?_, ?_, ?_, ?_, ?_⟩ <;>
    simp [initState, station_init, cnt_replicate_ne, hsA, hsB, isSig, rem, low, isDW, isDB]

theorem hsB_le_hsA (t : TPc) : hsB t ≤ hsA t := by
  cases t <;> simp [hsA, hsB]

theorem hsA_le (t : TPc) : hsA t ≤ hsB t + holdsT t := by
  cases t <;> simp [hsA, hsB, holdsT]

theorem hsA_le_one (t : TPc) : hsA t ≤ 1 := by
  cases t <;> simp [hsA]

theorem hsA_wakeSeated (t : TPc) : hsA (wakeSeated t) = hsA t - hsB t := by
  cases t <;> rfl

theorem hsB_wakeSeated (t : TPc) : hsB (wakeSeated t) = 0 := by
  cases t <;> rfl

theorem isSig_wakeSeated (t : TPc) : isSig (wakeSeated t) = isSig t := by
  cases t <;> rfl

theorem rem_wakeSeated (t : TPc) : rem (wakeSeated t) = rem t := by
  cases t <;> rfl

theorem low_wakeSeated (t : TPc) : low (wakeSeated t) = low t := by
  cases t <;> rfl

theorem hsA_wakeFull (t : TPc) : hsA (wakeFull t) = hsA t := by
  cases t <;> rfl

theorem isDW_wakeSeated (t : TPc) : isDW (wakeSeated t) = isDW t := by
  cases t <;> rfl

theorem isDB_wakeSeated (t : TPc) : isDB (wakeSeated t) = isDB t := by
  cases t <;> rfl

theorem isDW_wakeFull (t : TPc) : isDW (wakeFull t) = isDW t := by
  cases t <;> rfl

theorem isDB_wakeFull (t : TPc) : isDB (wakeFull t) = 0 := by
  cases t <;> rfl

theorem isDW_le (t : TPc) : 0 ≤ isDW t ∧ isDW t ≤ holdsT t := by
  cases t <;> simp [isDW, holdsT]

theorem isDB_le (t : TPc) : 0 ≤ isDB t ∧ isDB t ≤ 1 := by
  cases t <;> simp [isDB]

theorem hsB_wakeFull (t : TPc) : hsB (wakeFull t) = hsB t := by
  cases t <;> rfl

theorem isSig_wakeFull (t : TPc) : isSig (wakeFull t) = isSig t := by
  cases t <;> rfl

theorem rem_wakeFull (t : TPc) : rem (wakeFull t) = rem t := by
  cases t <;> rfl

theorem low_wakeFull (t : TPc) : low (wakeFull t) = low t := by
  cases t <;> rfl

theorem low_nonneg (t : TPc) : 0 ≤ low t := by
  cases t <;> simp [low]

theorem hsA_not_callable {t : TPc} (h : 1 ≤ hsA t) : callable t = false := by
  cases t <;> simp [hsA] at h <;> rfl

theorem callable_wakeSeated (t : TPc) : callable (wakeSeated t) = callable t := by
  cases t <;> rfl

theorem callable_wakeFull (t : TPc) : callable (wakeFull t) = callable t := by
  cases t <;> rfl

theorem draining_hsA {t : TPc} (h : draining t = true) : hsA t = 0 := by
  cases t <;> simp [draining] at h <;> rfl

theorem draining_not_callable {t : TPc} (h : draining t = true) : callable t = false := by
  cases t <;> simp [draining] at h <;> rfl

set_option maxHeartbeats 1600000 in
theorem hand_pass {s s1 : State} {i : Nat} {p : Passenger} (h : Hand s)
    (hi : s.pass[i]? = some p) (hs : passStep s i p = some s1) : Hand s1 := by
  have hb1 := base_pass h.base hi hs
  obtain ⟨⟨hm, hw, hin, hmv⟩, h1, h2, h3, h4, h5, h6, h7⟩ := h
  have hpos := cnt_pos hi
  have e1 := hsB_le_hsA s.train
  have e2 := hsA_le s.train
  have e3 := hsA_le_one s.train
  have e4 := isDW_le s.train
  have e5 := isDB_le s.train
  unfold holdsP at hm
  unfold passStep at hs
  by_cases hlk : s.st.lock = true <;>
    simp only [hlk, if_true, if_false, Bool.false_eq_true] at hm <;>
  split at hs <;> rename_i hpc <;> rw [hpc] at hpos <;> (try split at hs) <;>
    simp only [Option.some.injEq, reduceCtorEq] at hs <;> subst hs <;>
    refine ⟨hb1, ?_, ?_, ?_, ?_, ?_, ?_, ?_⟩ <;>
    simp +decide only [cnt_set_eq hi, hpc, if_true, if_false, reduceCtorEq,
      hsA_wakeSeated, hsB_wakeSeated, isSig_wakeSeated, rem_wakeSeated, low_wakeSeated,
      hsA_wakeFull, hsB_wakeFull, isSig_wakeFull, rem_wakeFull, low_wakeFull,
      isDW_wakeSeated, isDB_wakeSeated, isDW_wakeFull, isDB_wakeFull] <;>
    omega

theorem hand_signal {s s1 : State} {c : Int} {w : Nat} (h : Hand s)
    (ht : s.train = .tSignal c) (hs : signalArrived s c w = some s1) : Hand s1 := by
  have hb1 := base_signal h.base ht hs
  obtain ⟨⟨-, -, hin, -⟩, h1, h2, h3, h4, h5, h6, h7⟩ := h
  rw [ht] at h1 h2 h3 h4 h5 h6 h7
  simp only [hsA, hsB, isSig, rem, low, isDW, isDB] at h1 h2 h3 h4 h5 h6 h7
  unfold signalArrived at hs
  split at hs
  · rename_i p hi
    have hpos := cnt_pos hi
    split at hs
    · rename_i hpc
      rw [hpc] at hpos
      simp only [Option.some.injEq] at hs
      subst hs
      refine ⟨hb1, ?_, ?_, ?_, ?_, ?_, ?_, ?_⟩ <;>
        simp +decide only [hsA, hsB, isSig, rem, low, isDW, isDB, cnt_set_eq hi, hpc,
          if_true, if_false, reduceCtorEq] <;>
        omega
    · split at hs <;> simp only [Option.some.injEq, reduceCtorEq] at hs
      omega
  · split at hs <;> simp only [Option.some.injEq, reduceCtorEq] at hs
    omega

theorem hand_train {s s1 : State} {w : Nat} (h : Hand s)
    (hs : trainStep s w = some s1) : Hand s1 := by
  have hb1 := base_train h.base hs
  unfold trainStep at hs
  split at hs <;> rename_i ht
  case h_4 => exact hand_signal h ht hs
  all_goals
    obtain ⟨⟨hm, hw, hin, hmv⟩, h1, h2, h3, h4, h5, h6, h7⟩ := h
    unfold holdsP at hm
    rw [ht] at hm h1 h2 h3 h4 h5 h6 h7
    simp only [hsA, hsB, isSig, rem, low, isDW, isDB, holdsT] at hm h1 h2 h3 h4 h5 h6 h7
    by_cases hlk : s.st.lock = true <;>
      simp only [hlk, if_true, if_false, Bool.false_eq_true] at hm <;>
      (try split at hs) <;>
      simp only [Option.some.injEq, reduceCtorEq] at hs <;> subst hs <;>
      refine ⟨hb1, ?_, ?_, ?_, ?_, ?_, ?_, ?_⟩ <;>
      simp +decide only [hsA, hsB, isSig, rem, low, isDW, isDB] <;>
      first | omega | exact fun _ => trivial

theorem hand_step {s s1 : State} {a : Action} (h : Hand s)
    (hs : step false s a = some s1) : Hand s1 := by
  cases a with
  | call n =>
    have hb1 := base_step h.base hs
    simp only [step, Option.ite_none_right_eq_some, Option.some.injEq] at hs
    obtain ⟨hc, hs⟩ := hs
    subst hs
    obtain ⟨⟨-, -, hin, -⟩, h1, h2, h3, h4, h5, h6, h7⟩ := h
    cases ht : s.train <;> simp [ht, callable] at hc <;>
      rw [ht] at h1 h2 <;> simp only [hsA, hsB] at h1 h2 <;>
      refine ⟨hb1, ?_, ?_, ?_, ?_, ?_, ?_, ?_⟩ <;>
      simp +decide only [hsA, hsB, isSig, rem, low, isDW, isDB] <;>
      omega
  | train w => exact hand_train h hs
  | pass i =>
    simp only [step] at hs
    split at hs
    · rename_i p hi
      exact hand_pass h hi hs
    · simp at hs
  | spuriousP i =>
    simp only [step] at hs
    split at hs <;> simp at hs
  | spuriousT => simp [step] at hs

theorem hand_run {acts : List Action} {s s1 : State} (h : Hand s)
    (hs : run false s acts = some s1) : Hand s1 := by
  induction acts generalizing s with
  | nil =>
    simp only [run, Option.some.injEq] at hs
    subst hs
    exact h
  | cons a as ih =>
    simp only [run, Option.bind_eq_some] at hs
    obtain ⟨s2, h2, h3⟩ := hs
    exact ih (hand_step h h2) h3

theorem hand_reach {s : State} (h : Reach false s) : Hand s := by
  obtain ⟨n, acts, hr⟩ := h
  exact hand_run (hand_init n) hr

/-! ## One call without arrivals -/

theorem inLoop_wakeSeated (t : TPc) : inLoop (wakeSeated t) = inLoop t := by
  cases t <;> rfl

theorem inLoop_wakeFull (t : TPc) : inLoop (wakeFull t) = inLoop t := by
  cases t <;> rfl

theorem postLoop_wakeSeated (t : TPc) : postLoop (wakeSeated t) = postLoop t := by
  cases t <;> rfl

theorem postLoop_wakeFull (t : TPc) : postLoop (wakeFull t) = postLoop t := by
  cases t <;> rfl

theorem postLoop_hsB {t : TPc} (h : postLoop t = true) : hsB t = 0 := by
  cases t <;> simp [postLoop] at h <;> rfl

theorem postLoop_hsA {t : TPc} (h : postLoop t = true) : hsA t = 0 := by
  cases t <;> simp [postLoop] at h <;> rfl

theorem exact_pass {N W : Int} {s s1 : State} {i : Nat} {p : Passenger}
    (h : Exact N W s) (hi : s.pass[i]? = some p)
    (hq : p.pc ≠ .notArrived ∧ p.pc ≠ .wInc)
    (hs : passStep s i p = some s1) : Exact N W s1 := by
  have hh1 := hand_pass h.hand hi hs
  obtain ⟨hh, hse, hn, htot, hloop, hpost⟩ := h
  have h2 := hh.blk
  have hpos := cnt_pos hi
  have hB : postLoop s.train = true → cnt .bInc s.pass = 0 := by
    intro hp
    have := postLoop_hsB hp
    omega
  unfold passStep at hs
  split at hs <;> rename_i hpc <;> rw [hpc] at hpos <;> (try split at hs) <;>
    simp only [Option.some.injEq, reduceCtorEq] at hs <;> subst hs <;>
    (try (simp [hpc] at hq; done)) <;>
    refine ⟨hh1, hse, hn, ?_, ?_, ?_⟩ <;>
    simp +decide only [cnt_set_eq hi, hpc, if_true, if_false, reduceCtorEq,
      inLoop_wakeSeated, inLoop_wakeFull, postLoop_wakeSeated, postLoop_wakeFull,
      rem_wakeSeated, rem_wakeFull] <;>
    first
      | omega
      | (intro hL; have := hloop hL; omega)
      | (intro hP; have := hpost hP; have := hB hP; omega)

theorem exact_signal {N W : Int} {s s1 : State} {c : Int} {w : Nat}
    (h : Exact N W s) (ht : s.train = .tSignal c)
    (hs : signalArrived s c w = some s1) : Exact N W s1 := by
  have hh1 := hand_signal h.hand ht hs
  obtain ⟨hh, hse, hn, htot, hloop, hpost⟩ := h
  have h3 := hh.sig
  rw [ht] at hloop h3
  simp only [inLoop, rem, isSig, true_implies] at hloop h3
  unfold signalArrived at hs
  split at hs
  · rename_i p hi
    have hpos := cnt_pos hi
    split at hs
    · rename_i hpc
      rw [hpc] at hpos
      simp only [Option.some.injEq] at hs
      subst hs
      refine ⟨hh1, hse, hn, ?_, ?_, ?_⟩ <;>
        simp +decide only [inLoop, postLoop, rem, cnt_set_eq hi, hpc, if_true,
          if_false, reduceCtorEq, true_implies, false_implies, Bool.false_eq_true] <;>
        omega
    · split at hs <;> simp only [Option.some.injEq, reduceCtorEq] at hs
      omega
  · split at hs <;> simp only [Option.some.injEq, reduceCtorEq] at hs
    omega

theorem exact_train {N W : Int} {s s1 : State} {w : Nat} (h : Exact N W s)
    (hs : trainStep s w = some s1) : Exact N W s1 := by
  have hh1 := hand_train h.hand hs
  unfold trainStep at hs
  split at hs <;> rename_i ht
  case h_4 => exact exact_signal h ht hs
  all_goals
    obtain ⟨⟨⟨hm, hw, hin, hmv⟩, h1, h2, h3, h4, h5, -, -⟩, hse, hn, htot, hloop, hpost⟩ := h
    rw [hse] at h4 h5
    have h4 := h4 hn
    have h5 := h5 hn
    unfold holdsP at hm
    rw [ht] at hm h1 h2 h4 h5 hloop hpost
    simp only [hsA, hsB, rem, low, holdsT, inLoop, postLoop, true_implies,
      false_implies, Bool.false_eq_true] at hm h1 h2 h4 h5 hloop hpost
    (try split at hs) <;>
      simp only [Option.some.injEq, reduceCtorEq] at hs <;> subst hs <;>
      refine ⟨hh1, hse, hn, ?_, ?_, ?_⟩ <;>
      simp +decide only [inLoop, postLoop, rem, true_implies, false_implies,
        Bool.false_eq_true] <;>
      omega

theorem exact_step {N W : Int} {s s1 : State} {a : Action} (h : Exact N W s)
    (hq : (arrives s a || isCall a) = false) (hs : step false s a = some s1) :
    Exact N W s1 := by
  cases a with
  | call n => simp [isCall] at hq
  | train w => exact exact_train h hs
  | pass i =>
    simp only [step] at hs
    split at hs
    · rename_i p hi
      simp only [arrives, hi, isCall, Bool.or_false, Bool.or_eq_false_iff,
        decide_eq_false_iff_not] at hq
      exact exact_pass h hi hq hs
    · simp at hs
  | spuriousP i =>
    simp only [step] at hs
    split at hs <;> simp at hs
  | spuriousT => simp [step] at hs

theorem exact_run {N W : Int} {acts : List Action} {s s1 : State}
    (h : Exact N W s) (hs : runQuiet s acts = some s1) : Exact N W s1 := by
  induction acts generalizing s with
  | nil =>
    simp only [runQuiet, Option.some.injEq] at hs
    subst hs
    exact h
  | cons a as ih =>
    simp only [runQuiet] at hs
    split at hs
    · simp at hs
    · rename_i hq
      simp only [Option.bind_eq_some] at hs
      obtain ⟨s2, h2, h3⟩ := hs
      exact ih (exact_step h (by simpa using hq) h2) h3

theorem runNoArrival_false (s : State) (acts : List Action) :
    runNoArrival false s acts = runQuiet s acts := by
  induction acts generalizing s with
  | nil => rfl
  | cons a as ih =>
    simp only [runNoArrival, runQuiet]
    split
    · rfl
    · cases step false s a with
      | none => rfl
      | some s1 => simpa using ih s1

theorem runQuiet_run {acts : List Action} {s s1 : State}
    (hs : runQuiet s acts = some s1) : run false s acts = some s1 := by
  induction acts generalizing s with
  | nil => simpa [runQuiet, run] using hs
  | cons a as ih =>
    simp only [runQuiet] at hs
    split at hs
    · simp at hs
    · simp only [Option.bind_eq_some] at hs
      obtain ⟨s2, h2, h3⟩ := hs
      simp only [run, Option.bind_eq_some]
      exact ⟨s2, h2, ih h3⟩

theorem exact_start {N : Int} {s0 s1 : State} (hr : Reach false s0) (hN : 0 ≤ N)
    (hc : step false s0 (.call N) = some s1) :
    Exact N s0.st.wait_passengers s1 := by
  have hh := hand_reach hr
  have hh1 := hand_step hh hc
  simp only [step, Option.ite_none_right_eq_some, Option.some.injEq] at hc
  obtain ⟨hcall, hs⟩ := hc
  subst hs
  have h1 := hh.one
  have e0 : hsA s0.train = 0 := by
    cases ht : s0.train <;> simp [ht, callable] at hcall <;> rfl
  refine ⟨hh1, rfl, hN, ?_, ?_, ?_⟩ <;>
    simp +decide only [inLoop, postLoop, rem, true_implies, false_implies,
      Bool.false_eq_true] <;>
    omega

/-! ## Progress of one call without arrivals -/

theorem psum_ge {l : List Passenger} {i : Nat} {a : Passenger}
    (h : l[i]? = some a) : prank a.pc ≤ psum l := by
  induction l generalizing i with
  | nil => simp at h
  | cons x l ih =>
    cases i with
    | zero =>
      simp at h
      subst h
      simp only [psum]
      omega
    | succ j =>
      simp at h
      have := ih h
      simp only [psum]
      omega

theorem psum_set_eq {l : List Passenger} {i : Nat} {a : Passenger}
    (h : l[i]? = some a) (b : Passenger) :
    psum (l.set i b) = psum l + prank b.pc - prank a.pc := by
  induction l generalizing i with
  | nil => simp at h
  | cons x l ih =>
    cases i with
    | zero =>
      simp at h
      subst h
      simp only [List.set_cons_zero, psum]
      omega
    | succ j =>
      simp at h
      have := psum_ge h
      simp only [List.set_cons_succ, psum, ih h]
      omega

theorem cnt_exists {q : PPc} {l : List Passenger} (h : 1 ≤ cnt q l) :
    ∃ (i : Nat) (p : Passenger), l[i]? = some p ∧ p.pc = q := by
  induction l with
  | nil => simp [cnt] at h
  | cons x l ih =>
    by_cases hx : x.pc = q
    · exact ⟨0, x, by simp, hx⟩
    · simp only [cnt, hx, if_false, Nat.zero_add] at h
      obtain ⟨i, p, hi, hp⟩ := ih h
      exact ⟨i + 1, p, by simpa using hi, hp⟩

theorem trank_wakeSeated (t : TPc) : trank (wakeSeated t) ≤ trank t := by
  cases t <;> simp [wakeSeated, trank]

theorem trank_wakeFull (t : TPc) : trank (wakeFull t) ≤ trank t := by
  cases t <;> simp [wakeFull, trank]

theorem stepsLeft_pass {s s1 : State} {i : Nat} {p : Passenger}
    (hi : s.pass[i]? = some p) (hs : passStep s i p = some s1) :
    stepsLeft s1 < stepsLeft s := by
  have e1 := trank_wakeSeated s.train
  have e2 := trank_wakeFull s.train
  have hge := psum_ge hi
  unfold passStep at hs
  split at hs <;> rename_i hpc <;> rw [hpc] at hge <;> (try split at hs) <;>
    simp only [Option.some.injEq, reduceCtorEq] at hs <;> subst hs <;>
    simp only [stepsLeft, psum_set_eq hi, hpc, prank] at hge ⊢ <;>
    omega

theorem stepsLeft_signal {s s1 : State} {c : Int} {w : Nat} (h : Hand s)
    (ht : s.train = .tSignal c) (hs : signalArrived s c w = some s1) :
    stepsLeft s1 < stepsLeft s := by
  have h3 := h.sig
  rw [ht] at h3
  simp only [isSig] at h3
  unfold signalArrived at hs
  split at hs
  · rename_i p hi
    have hge := psum_ge hi
    split at hs
    · rename_i hpc
      rw [hpc] at hge
      simp only [Option.some.injEq] at hs
      subst hs
      simp only [stepsLeft, psum_set_eq hi, hpc, prank, ht, trank] at hge ⊢
      omega
    · split at hs <;> simp only [Option.some.injEq, reduceCtorEq] at hs
      omega
  · split at hs <;> simp only [Option.some.injEq, reduceCtorEq] at hs
    omega

theorem stepsLeft_train {s s1 : State} {w : Nat} (h : Hand s) (hN : 0 ≤ s.seats)
    (hs : trainStep s w = some s1) : stepsLeft s1 < stepsLeft s := by
  have h5 := h.capLow hN
  unfold trainStep at hs
  split at hs <;> rename_i ht
  case h_4 => exact stepsLeft_signal h ht hs
  all_goals
    rw [ht] at h5
    simp only [low, rem] at h5
    (try split at hs) <;>
      simp only [Option.some.injEq, reduceCtorEq] at hs <;> subst hs <;>
      simp only [stepsLeft, ht, trank] <;>
      omega

theorem stepsLeft_nonneg {s : State} (h : Hand s) (hN : 0 ≤ s.seats) : 0 ≤ stepsLeft s := by
  have h5 := h.capLow hN
  simp only [stepsLeft]
  cases ht : s.train <;> rw [ht] at h5 <;> simp only [low, rem, trank] at h5 ⊢ <;> omega

theorem wakeSeated_ne_idle {t : TPc} (h : t ≠ .idle) : wakeSeated t ≠ .idle := by
  cases t <;> simp [wakeSeated] at h ⊢

theorem wakeFull_ne_idle {t : TPc} (h : t ≠ .idle) : wakeFull t ≠ .idle := by
  cases t <;> simp [wakeFull] at h ⊢

theorem live_step {N W : Int} {s s1 : State} {a : Action} (h : Live N W s)
    (hq : (arrives s a || isCall a) = false) (hs : step false s a = some s1) :
    Live N W s1 := by
  refine ⟨exact_step h.exact hq hs, ?_, ?_⟩
  · have h0 := h.noInc
    cases a with
    | call n => simp [isCall] at hq
    | train w =>
      simp only [step] at hs
      unfold trainStep at hs
      split at hs <;> (try unfold signalArrived at hs) <;> (try split at hs) <;>
        (try split at hs) <;> (try split at hs) <;>
        simp only [Option.some.injEq, reduceCtorEq] at hs <;> subst hs <;>
        (try exact h0)
      rename_i p hi hpc
      have hpos := cnt_pos hi
      rw [hpc] at hpos
      simp +decide only [cnt_set_eq hi, hpc, if_true, if_false, reduceCtorEq]
      omega
    | pass i =>
      simp only [step] at hs
      split at hs
      · rename_i p hi
        simp only [arrives, hi, isCall, Bool.or_false, Bool.or_eq_false_iff,
          decide_eq_false_iff_not] at hq
        have hpos := cnt_pos hi
        unfold passStep at hs
        split at hs <;> rename_i hpc <;> rw [hpc] at hpos <;> (try split at hs) <;>
          simp only [Option.some.injEq, reduceCtorEq] at hs <;> subst hs <;>
          (try (simp [hpc] at hq; done)) <;>
          simp +decide only [cnt_set_eq hi, hpc, if_true, if_false, reduceCtorEq] <;>
          omega
      · simp at hs
    | spuriousP i =>
      simp only [step] at hs
      split at hs <;> simp at hs
    | spuriousT => simp [step] at hs
  · have h0 := h.active
    cases a with
    | call n => simp [isCall] at hq
    | train w =>
      simp only [step] at hs
      unfold trainStep at hs
      split at hs <;> (try unfold signalArrived at hs) <;> (try split at hs) <;>
        (try split at hs) <;> (try split at hs) <;>
        simp only [Option.some.injEq, reduceCtorEq] at hs <;> subst hs <;> simp
    | pass i =>
      simp only [step] at hs
      split at hs
      · unfold passStep at hs
        split at hs <;> (try split at hs) <;>
          simp only [Option.some.injEq, reduceCtorEq] at hs <;> subst hs <;>
          first
            | exact h0
            | exact wakeSeated_ne_idle h0
            | exact wakeFull_ne_idle h0
      · simp at hs
    | spuriousP i =>
      simp only [step] at hs
      split at hs <;> simp at hs
    | spuriousT => simp [step] at hs

theorem live_run {N W : Int} {acts : List Action} {s s1 : State}
    (h : Live N W s) (hs : runQuiet s acts = some s1) : Live N W s1 := by
  induction acts generalizing s with
  | nil =>
    simp only [runQuiet, Option.some.injEq] at hs
    subst hs
    exact h
  | cons a as ih =>
    simp only [runQuiet] at hs
    split at hs
    · simp at hs
    · rename_i hq
      simp only [Option.bind_eq_some] at hs
      obtain ⟨s2, h2, h3⟩ := hs
      exact ih (live_step h (by simpa using hq) h2) h3

theorem live_start {N : Int} {s0 s1 : State} (hr : Reach false s0) (hN : 0 ≤ N)
    (h0 : cnt .wInc s0.pass = 0) (hc : step false s0 (.call N) = some s1) :
    Live N s0.st.wait_passengers s1 := by
  refine ⟨exact_start hr hN hc, ?_, ?_⟩ <;>
    simp only [step, Option.ite_none_right_eq_some, Option.some.injEq] at hc <;>
    obtain ⟨-, hs⟩ := hc <;> subst hs
  · exact h0
  · simp

theorem canStep_of_cnt {s : State} (q : PPc) (hq : alwaysOn q = true)
    (h : 1 ≤ cnt q s.pass) : CanStep s := by
  obtain ⟨i, p, hi, hp⟩ := cnt_exists h
  refine ⟨.pass i, ?_, ?_⟩
  · subst hp
    cases hpc : p.pc <;> rw [hpc] at hq <;> simp [alwaysOn] at hq <;>
      simp [arrives, isCall, hi, hpc]
  · subst hp
    cases hpc : p.pc <;> rw [hpc] at hq <;> simp [alwaysOn] at hq <;>
      simp only [step, hi, passStep, hpc] <;> (try split) <;> rfl

theorem canStep_of_free {s : State} {q : PPc} (hq : q = .wReacq ∨ q = .oLock)
    (hl : s.st.lock = false) (h : 1 ≤ cnt q s.pass) : CanStep s := by
  obtain ⟨i, p, hi, hp⟩ := cnt_exists h
  refine ⟨.pass i, ?_, ?_⟩
  · rcases hq with hq | hq <;> subst hq <;> simp [arrives, isCall, hi, hp]
  · rcases hq with hq | hq <;> subst hq <;> simp [step, hi, passStep, hp, hl]

theorem canStep_of_on {s : State}
    (h : 1 ≤ cnt .wWait s.pass + cnt .wDec s.pass + cnt .bInc s.pass
          + cnt .wUnlock s.pass + cnt .wSignal s.pass + cnt .oDec s.pass
          + cnt .oUnlock s.pass + cnt .oRead s.pass + cnt .oBroadcast s.pass
          + cnt .boarding s.pass) :
    CanStep s := by
  by_cases h9 : 1 ≤ cnt .boarding s.pass
  · exact canStep_of_cnt .boarding rfl h9
  by_cases h1 : 1 ≤ cnt .wWait s.pass
  · exact canStep_of_cnt .wWait rfl h1
  by_cases h2 : 1 ≤ cnt .wDec s.pass
  · exact canStep_of_cnt .wDec rfl h2
  by_cases h3 : 1 ≤ cnt .bInc s.pass
  · exact canStep_of_cnt .bInc rfl h3
  by_cases h4 : 1 ≤ cnt .wUnlock s.pass
  · exact canStep_of_cnt .wUnlock rfl h4
  by_cases h5 : 1 ≤ cnt .wSignal s.pass
  · exact canStep_of_cnt .wSignal rfl h5
  by_cases h6 : 1 ≤ cnt .oDec s.pass
  · exact canStep_of_cnt .oDec rfl h6
  by_cases h7 : 1 ≤ cnt .oUnlock s.pass
  · exact canStep_of_cnt .oUnlock rfl h7
  by_cases h8 : 1 ≤ cnt .oRead s.pass
  · exact canStep_of_cnt .oRead rfl h8
  exact canStep_of_cnt .oBroadcast rfl (by omega)

theorem canStep_train {s : State} {w : Nat} (h : (trainStep s w).isSome = true) :
    CanStep s :=
  ⟨.train w, by simp [arrives, isCall], by simpa [step] using h⟩

theorem progress {N W : Int} {s : State} (h : Live N W s)
    (hret : s.train ≠ .returned) : CanStep s := by
  obtain ⟨⟨⟨⟨hm, hw, hin, -⟩, h1, h2, h3, -, -, h6, h7⟩, -, -, -, -, -⟩, h0, hact⟩ := h
  unfold holdsP at hm
  by_cases hE : 1 ≤ cnt .wWait s.pass + cnt .wDec s.pass + cnt .bInc s.pass
          + cnt .wUnlock s.pass + cnt .wSignal s.pass + cnt .oDec s.pass
          + cnt .oUnlock s.pass + cnt .oRead s.pass + cnt .oBroadcast s.pass
          + cnt .boarding s.pass
  · exact canStep_of_on hE
  by_cases hlk : s.st.lock = true <;>
    simp only [hlk, if_true, if_false, Bool.false_eq_true] at hm
  · -- the mutex is held, and not by a passenger: the train holds it
    cases ht : s.train <;> rw [ht] at hm h1 h3 <;>
      simp only [holdsT, hsA, isSig] at hm h1 h3 <;> (try omega)
    · exact canStep_train (w := 0) (by simp [trainStep, ht]; split <;> rfl)
    · obtain ⟨w, p, hi, hp⟩ := cnt_exists h3
      exact canStep_train (w := w) (by simp [trainStep, ht, signalArrived, hi, hp])
    · exact canStep_train (w := 0) (by simp [trainStep, ht])
    · exact canStep_train (w := 0) (by simp [trainStep, ht])
    · exact canStep_train (w := 0) (by simp [trainStep, ht]; split <;> rfl)
    · exact canStep_train (w := 0) (by simp [trainStep, ht])
    · exact canStep_train (w := 0) (by simp [trainStep, ht])
  · -- the mutex is free
    have hl : s.st.lock = false := by simpa using hlk
    by_cases hR : 1 ≤ cnt .wReacq s.pass
    · exact canStep_of_free (Or.inl rfl) hl hR
    by_cases hBo : 1 ≤ cnt .oLock s.pass
    · exact canStep_of_free (Or.inr rfl) hl hBo
    cases ht : s.train <;> rw [ht] at hm h1 h7 <;>
      simp only [holdsT, hsA, isDB] at hm h1 h7 <;> (try omega)
    · exact absurd ht hact
    · exact canStep_train (w := 0) (by simp [trainStep, ht, hl])
    · exact canStep_train (w := 0) (by simp [trainStep, ht, hl])
    · exact canStep_train (w := 0) (by simp [trainStep, ht, hl])
    · exact absurd ht hret

theorem stepsLeft_step {N W : Int} {s s1 : State} {a : Action} (h : Live N W s)
    (hq : (arrives s a || isCall a) = false) (hs : step false s a = some s1) :
    stepsLeft s1 < stepsLeft s := by
  have hN : 0 ≤ s.seats := by
    rw [h.exact.seatsEq]
    exact h.exact.nonneg
  cases a with
  | call n => simp [isCall] at hq
  | train w => exact stepsLeft_train h.exact.hand hN hs
  | pass i =>
    simp only [step] at hs
    split at hs
    · rename_i p hi
      exact stepsLeft_pass hi hs
    · simp at hs
  | spuriousP i =>
    simp only [step] at hs
    split at hs <;> simp at hs
  | spuriousT => simp [step] at hs

theorem live_nonneg {N W : Int} {s : State} (h : Live N W s) : 0 ≤ stepsLeft s := by
  apply stepsLeft_nonneg h.exact.hand
  rw [h.exact.seatsEq]
  exact h.exact.nonneg

theorem returns_of_live {N W : Int} (n : Nat) :
    ∀ s : State, Live N W s → stepsLeft s ≤ (n : Int) →
      ∃ acts s1, runQuiet s acts = some s1 ∧ s1.train = .returned := by
  induction n with
  | zero =>
    intro s h hm
    by_cases hret : s.train = .returned
    · exact ⟨[], s, rfl, hret⟩
    · obtain ⟨a, hq, hsome⟩ := progress h hret
      obtain ⟨s2, hs2⟩ := Option.isSome_iff_exists.mp hsome
      have h1 := stepsLeft_step h hq hs2
      have h2 := live_nonneg (live_step h hq hs2)
      omega
  | succ k ih =>
    intro s h hm
    by_cases hret : s.train = .returned
    · exact ⟨[], s, rfl, hret⟩
    · obtain ⟨a, hq, hsome⟩ := progress h hret
      obtain ⟨s2, hs2⟩ := Option.isSome_iff_exists.mp hsome
      have h1 := stepsLeft_step h hq hs2
      obtain ⟨acts, s3, hr, ht⟩ := ih s2 (live_step h hq hs2) (by omega)
      refine ⟨a :: acts, s3, ?_, ht⟩
      simp [runQuiet, hq, hs2, hr]

/-! ## Reachability of the example states -/

theorem oneSeat_reach : Reach false oneSeatState :=
  ⟨3, oneSeatTrace, by decide⟩

theorem mid_reach : Reach false midState :=
  ⟨2, midTrace, by decide⟩

theorem drain_reach : Reach false drainState :=
  ⟨2, drainTrace, by decide⟩

theorem ten_reach : Reach false tenWaiting :=
  ⟨10, tenArrivals, by decide⟩

/-! ## What does hold of `station_on_board` and of the counters at a return -/

/-- Both counters stay between 0 and the number of passenger threads, so the
C `int`s never overflow as long as there are fewer than `2^31` threads. -/
theorem counters_bounded (spur : Bool) (s : State) (h : Reach spur s) :
    0 ≤ s.st.wait_passengers ∧ s.st.wait_passengers ≤ (s.pass.length : Int)
    ∧ 0 ≤ s.st.in_passengers ∧ s.st.in_passengers ≤ (s.pass.length : Int) := by
  obtain ⟨-, hw, hin, -⟩ := base_reach h
  have e1 := inPhase_waiting s.pass
  have e2 := inPhase_boarding s.pass
  have e3 := inPhase_total s.pass
  omega

/-- The decrement of line 84 lowers `in_passengers` by exactly one and leaves
`wait_passengers` unchanged. -/
theorem on_board_decrement (spur : Bool) (s s1 : State) (i : Nat) (p : Passenger)
    (hi : s.pass[i]? = some p) (hpc : p.pc = .oDec)
    (hs : step spur s (.pass i) = some s1) :
    s1.st.in_passengers = s.st.in_passengers - 1
    ∧ s1.st.wait_passengers = s.st.wait_passengers := by
  simp only [step, hi, passStep, hpc, Option.some.injEq] at hs
  subst hs
  exact ⟨rfl, rfl⟩

/-- A passenger inside `station_on_board` is never blocked on a condition
variable: past line 82 its next statement is always enabled, and line 82
itself is enabled as soon as the mutex is free. -/
theorem on_board_never_waits (spur : Bool) (s : State) (i : Nat) (p : Passenger)
    (hi : s.pass[i]? = some p) :
    ((p.pc = .oDec ∨ p.pc = .oUnlock ∨ p.pc = .oRead ∨ p.pc = .oBroadcast) →
        (step spur s (.pass i)).isSome = true)
    ∧ (p.pc = .oLock → s.st.lock = false →
        (step spur s (.pass i)).isSome = true) := by
  constructor
  · rintro (h | h | h | h) <;> simp only [step, hi, passStep, h] <;>
      (try split) <;> rfl
  · intro h hl
    simp [step, hi, passStep, h, hl]

/-- Counters at the return of a call that started with `wait_passengers = W`
and during which nobody arrived: `wait_passengers = W - admitted`, and
`in_passengers` is the number of passengers that have returned from
`station_wait_for_train` and not yet executed line 84, whether or not they
have called `station_on_board`. -/
theorem counters_at_return (s0 s1 s : State) (N : Int) (acts : List Action)
    (hr : Reach false s0) (hN : 0 ≤ N) (hc : step false s0 (.call N) = some s1)
    (hq : runQuiet s1 acts = some s) (hret : s.train = .returned) :
    s.st.wait_passengers = s0.st.wait_passengers - (s.admitted : Int)
    ∧ s.st.in_passengers
        = ((cnt .boarding s.pass + cnt .oLock s.pass + cnt .oDec s.pass : Nat) : Int) := by
  have h := exact_run (exact_start hr hN hc) hq
  have h1 := h.total
  have h2 := h.hand.blk
  have h3 := h.hand.base.inEq
  rw [hret] at h2
  simp only [hsB] at h2
  constructor <;> omega

/-! ## Claims -/

/-- C1 (defect of the code): `station_load_train` can return while
`in_passengers > 0`.  Two passengers wait, one train with two seats is
loaded, nothing wakes without a signal, each passenger calls
`station_on_board` only after its own `station_wait_for_train` returned; yet
the call returns with `in_passengers = 1`, the second passenger not having
called `station_on_board`.  The broadcast that releases the train comes from
the first passenger, which read `in_passengers == 0` on line 88 before the
second passenger was admitted. -/
theorem premature_departure :
    run false (initState 2) earlyTrace
      = some { st := { wait_passengers := 0, in_passengers := 1, lock := false },
               train := .returned,
               pass := [{ pc := .seated, moves := 1 }, { pc := .boarding, moves := 1 }],
               seats := 2, admitted := 2 } := by
  decide

/-- C2: capacity bound.  Without spurious wakeups, in every state reachable
from `station_init`, the number of passengers that have completed the
waiting-to-boarding transition (line 68) since the current
`station_load_train(station, N)` call started, together with the passengers
woken by the train and still before line 68, is at most `N`, for every
`N ≥ 0`; this holds in particular when the call returns, whatever the number
of passengers waiting or arriving. -/
theorem capacity_bound (s : State) (h : Reach false s) (hN : 0 ≤ s.seats) :
    (s.admitted : Int)
      + ((cnt .wReacq s.pass + cnt .wDec s.pass + cnt .bInc s.pass : Nat) : Int)
      ≤ s.seats := by
  have hh := hand_reach h
  have h1 := hh.capLe hN
  have h2 := hh.capLow hN
  have h3 := low_nonneg s.train
  omega

theorem capacity_bound_witness :
    0 ≤ oneSeatState.seats
    ∧ (oneSeatState.admitted : Int)
        + ((cnt .wReacq oneSeatState.pass + cnt .wDec oneSeatState.pass
            + cnt .bInc oneSeatState.pass : Nat) : Int)
        ≤ oneSeatState.seats :=
  ⟨by decide, capacity_bound oneSeatState oneSeat_reach (by decide)⟩

/-- C3, as stated, fails when a condition wait may return without a signal.
Two passengers are blocked on line 66 (`wait_passengers = 2`,
`in_passengers = 0`), `station_load_train(station, 1)` is called and nobody
arrives.  The train signals passenger 0; the wait of passenger 1 returns
without a signal and passenger 1 runs lines 67 to 72 as well (line 66 is a
bare wait, not a loop).  The call returns after two passengers have completed
the waiting-to-boarding transition, not `min 1 2 = 1`. -/
theorem exact_admission_counterexample :
    run true (initState 2) (arrive 0 ++ arrive 1) = some twoWaiting
    ∧ twoWaiting.st.wait_passengers = 2 ∧ twoWaiting.st.in_passengers = 0
    ∧ step true twoWaiting (.call 1)
        = some { twoWaiting with train := .tLock 1, seats := 1, admitted := 0 }
    ∧ runNoArrival true
        { twoWaiting with train := .tLock 1, seats := 1, admitted := 0 } spuriousLoad
        = some twoSeated
    ∧ twoSeated.train = .returned
    ∧ twoSeated.admitted = 2
    ∧ (twoSeated.admitted : Int) ≠ min 1 twoWaiting.st.wait_passengers := by
  decide

/-- C3, amended: exact admission count without spurious wakeups.  Let `s0`
be a state reachable without spurious wakeups in which no call is active,
`wait_passengers = W` and `in_passengers = 0`, and let
`station_load_train(station, N)` be called there with `N ≥ 0`.  Along every
schedule without spurious wakeups in which no passenger arrives and no
other train is called: the number of passengers that have completed the
waiting-to-boarding transition during the call never exceeds `min N W`; it
is exactly `min N W` once the train has left its admission loop, in
particular when the call has returned, and by then each of them has left
`station_wait_for_train`; and, provided no passenger was stopped between
lines 63 and 65 when the call started, the schedule can be continued so that
the call returns, with exactly `min N W` admitted. -/
theorem exact_admission (s0 s1 : State) (N : Int)
    (hr : Reach false s0) (_ : s0.st.in_passengers = 0) (hN : 0 ≤ N)
    (hc : step false s0 (.call N) = some s1) :
    ∀ acts s, runQuiet s1 acts = some s →
      (s.admitted : Int) ≤ min N s0.st.wait_passengers
      ∧ (postLoop s.train = true →
          (s.admitted : Int) = min N s0.st.wait_passengers
          ∧ cnt .wReacq s.pass + cnt .wDec s.pass + cnt .bInc s.pass
              + cnt .wUnlock s.pass + cnt .wSignal s.pass = 0)
      ∧ (cnt .wInc s0.pass = 0 →
          ∃ more s2, runQuiet s more = some s2 ∧ s2.train = .returned
            ∧ (s2.admitted : Int) = min N s0.st.wait_passengers) := by
  intro acts s hq
  have h := exact_run (exact_start hr hN hc) hq
  refine ⟨?_, fun hp => ⟨h.post hp, by rw [h.hand.one, postLoop_hsA hp]⟩, ?_⟩
  · have h1 := h.hand.capLe (by rw [h.seatsEq]; exact hN)
    have h2 := h.hand.capLow (by rw [h.seatsEq]; exact hN)
    have h3 := low_nonneg s.train
    have h4 := h.total
    have h5 := h.hand.base.waitEq
    have h6 := h.seatsEq
    omega
  · intro h0
    have hl := live_run (live_start hr hN h0 hc) hq
    obtain ⟨more, s2, hm, ht⟩ := returns_of_live (stepsLeft s).toNat s hl (by
      have := live_nonneg hl
      omega)
    refine ⟨more, s2, hm, ht, ?_⟩
    have hp := (exact_run h hm).post
    rw [ht] at hp
    exact hp rfl

theorem exact_admission_witness :
    (tenDone.admitted : Int) = min 3 tenWaiting.st.wait_passengers :=
  (exact_admission tenWaiting
    { tenWaiting with train := .tLock 3, seats := 3, admitted := 0 } 3
    ten_reach rfl (by decide) (by decide) tenLoad tenDone (by decide)).2.1 rfl |>.1

/-- C4: immediate return on the edge cases.  From any state in which the
call `station_load_train(station, count)` has just started, the mutex is
free, `in_passengers = 0` and either `wait_passengers = 0` or `count = 0`,
four consecutive statements of the train complete the call: line 38, the
loop test of line 40 (which fails, so the body with its signal and its wait
is never entered), the test of line 46 (which fails, so the wait of line 47
is skipped) and the unlock of line 50.  The state at the return differs from
the state at the start only in the train's program counter, so
`wait_passengers`, `in_passengers` and every passenger are unchanged. -/
theorem immediate_return (spur : Bool) (s : State) (count : Int) (w1 w2 w3 w4 : Nat)
    (ht : s.train = .tLock count) (hl : s.st.lock = false)
    (hin : s.st.in_passengers = 0)
    (h : s.st.wait_passengers = 0 ∨ count = 0) :
    run spur s [.train w1]
        = some { s with st := { s.st with lock := true }, train := .tTest count }
    ∧ run spur s [.train w1, .train w2]
        = some { s with st := { s.st with lock := true }, train := .dTest }
    ∧ run spur s [.train w1, .train w2, .train w3]
        = some { s with st := { s.st with lock := true }, train := .tUnlock }
    ∧ run spur s [.train w1, .train w2, .train w3, .train w4]
        = some { s with train := .returned } := by
  obtain ⟨⟨wp, ip, lk⟩, tr, ps, se, ad⟩ := s
  simp only at ht hl hin h
  subst ht hl hin
  have hc : ¬(0 < wp ∧ 0 < count) := by omega
  simp [run, step, trainStep, hc]

theorem immediate_return_witness :
    run false fiveWaiting [.train 0, .train 0, .train 0, .train 0]
      = some { fiveWaiting with train := .returned } :=
  (immediate_return false fiveWaiting 0 0 0 0 0 rfl rfl rfl (Or.inr rfl)).2.2.2

/-- C5 (defect of the code): counters at the return of a call that started
with `wait_passengers = 3` and `in_passengers = 0` and during which nobody
arrives.  Both admitted passengers call `station_on_board`, each exactly
once and before the train returns; passenger 1 has not yet executed line 82
when the train returns.  At the return `wait_passengers = 3 - admitted`
holds but `in_passengers = 1`; it only reaches 0 when passenger 1 has run
line 84, after the train has left. -/
theorem leak_at_return :
    run false (initState 3) (arrive 0 ++ arrive 1 ++ arrive 2)
      = some { st := { wait_passengers := 3, in_passengers := 0, lock := false },
               train := .idle,
               pass := List.replicate 3 { pc := .wBlocked, moves := 0 },
               seats := 0, admitted := 0 }
    ∧ run false (initState 3) leakTrace
      = some { st := { wait_passengers := 1, in_passengers := 1, lock := false },
               train := .returned,
               pass := [{ pc := .seated, moves := 1 }, { pc := .oLock, moves := 1 },
                        { pc := .wBlocked, moves := 0 }],
               seats := 2, admitted := 2 }
    ∧ run false (initState 3) (leakTrace ++ leakRest)
      = some { st := { wait_passengers := 1, in_passengers := 0, lock := false },
               train := .returned,
               pass := [{ pc := .seated, moves := 1 }, { pc := .seated, moves := 1 },
                        { pc := .wBlocked, moves := 0 }],
               seats := 2, admitted := 2 } := by
  decide

/-- C6, as stated, fails: in the reachable state `midState` passenger 0 has
executed `wait_passengers--` and not yet `in_passengers++`; two passengers
have arrived and none is seated, but `wait_passengers + in_passengers = 1`. -/
theorem accounting_counterexample :
    run false (initState 2) midTrace = some midState
    ∧ arrived midState.pass = 2
    ∧ inPhase .seated midState.pass = 0
    ∧ (arrived midState.pass : Int)
        ≠ midState.st.wait_passengers + midState.st.in_passengers
            + (inPhase .seated midState.pass : Int) := by
  decide

/-- C6, amended: passenger accounting.  In every state reachable from
`station_init`, with or without spurious wakeups, `wait_passengers` is the
number of passengers that have executed line 65 and not yet line 67,
`in_passengers` the number that have executed line 68 and not yet line 84;
both are non-negative; every passenger is in exactly one of the phases
not-arrived, waiting, in transit (between lines 67 and 68), boarding, seated;
`arrived = wait_passengers + in_passengers + seated + in transit`; at most
one passenger is in transit, and none when the mutex is free. -/
theorem accounting (spur : Bool) (s : State) (h : Reach spur s) :
    s.st.wait_passengers = (inPhase .waiting s.pass : Int)
    ∧ s.st.in_passengers = (inPhase .boarding s.pass : Int)
    ∧ 0 ≤ s.st.wait_passengers ∧ 0 ≤ s.st.in_passengers
    ∧ inPhase .notArrived s.pass + inPhase .waiting s.pass + inPhase .transit s.pass
        + inPhase .boarding s.pass + inPhase .seated s.pass = s.pass.length
    ∧ (arrived s.pass : Int)
        = s.st.wait_passengers + s.st.in_passengers + (inPhase .seated s.pass : Int)
            + (inPhase .transit s.pass : Int)
    ∧ inPhase .transit s.pass ≤ 1
    ∧ (s.st.lock = false → inPhase .transit s.pass = 0) := by
  obtain ⟨hm, hw, hin, -⟩ := base_reach h
  have e1 := inPhase_waiting s.pass
  have e2 := inPhase_boarding s.pass
  have e3 := inPhase_transit s.pass
  have e4 := arrived_eq s.pass
  unfold holdsP at hm
  refine ⟨by omega, by omega, by omega, by omega, inPhase_total s.pass, by omega, ?_, ?_⟩
  · by_cases hlk : s.st.lock = true <;>
      simp only [hlk, if_true, if_false, Bool.false_eq_true] at hm <;> omega
  · intro hlk
    simp only [hlk, if_false, Bool.false_eq_true] at hm
    omega

theorem accounting_witness :
    (arrived midState.pass : Int)
        = midState.st.wait_passengers + midState.st.in_passengers
            + (inPhase .seated midState.pass : Int)
            + (inPhase .transit midState.pass : Int) :=
  (accounting false midState mid_reach).2.2.2.2.2.1

/-- C8 (defect of the code): the broadcast of `station_on_board` does not
follow the caller's own decrement.  First run: passenger 0's decrement leaves
`in_passengers = 1`, passenger 1's decrement then brings it to 0, and
passenger 0, reading `in_passengers` on line 88 after it released the lock,
goes on to line 89 and broadcasts (the train leaves its wait of line 47).
Second run: passenger 0's decrement brings `in_passengers` to 0, passenger 1
is admitted before passenger 0 reads, and passenger 0 returns without
broadcasting. -/
theorem broadcast_not_own_decrement :
    (run false (initState 2) staleTraceA
        = some { st := { wait_passengers := 0, in_passengers := 1, lock := true },
                 train := .dBlocked,
                 pass := [{ pc := .oUnlock, moves := 1 }, { pc := .boarding, moves := 1 }],
                 seats := 2, admitted := 2 }
      ∧ run false (initState 2) (staleTraceA ++ staleTraceB)
        = some { st := { wait_passengers := 0, in_passengers := 0, lock := false },
                 train := .dBlocked,
                 pass := [{ pc := .oBroadcast, moves := 1 }, { pc := .oRead, moves := 1 }],
                 seats := 2, admitted := 2 }
      ∧ run false (initState 2) (staleTraceA ++ staleTraceB ++ [.pass 0])
        = some { st := { wait_passengers := 0, in_passengers := 0, lock := false },
                 train := .dReacq,
                 pass := [{ pc := .seated, moves := 1 }, { pc := .oRead, moves := 1 }],
                 seats := 2, admitted := 2 })
    ∧ (run false (initState 2) missedTrace
        = some { st := { wait_passengers := 0, in_passengers := 1, lock := false },
                 train := .tReacq 0,
                 pass := [{ pc := .oRead, moves := 1 }, { pc := .boarding, moves := 1 }],
                 seats := 2, admitted := 2 }
      ∧ run false (initState 2) (missedTrace ++ [.pass 0])
        = some { st := { wait_passengers := 0, in_passengers := 1, lock := false },
                 train := .tReacq 0,
                 pass := [{ pc := .seated, moves := 1 }, { pc := .boarding, moves := 1 }],
                 seats := 2, admitted := 2 }) := by
  decide

/-- C9: no admission during the drain.  Without spurious wakeups, in every
reachable state in which the train is between the exit of its admission loop
and its return, no passenger is woken-but-not-yet-transitioned, and no step
of any thread executes line 67 or line 68: `wait_passengers` does not
decrease, `in_passengers` does not increase and the number of transitions is
unchanged. -/
theorem no_admission_during_drain (s s1 : State) (a : Action) (h : Reach false s)
    (hd : draining s.train = true) (hs : step false s a = some s1) :
    cnt .wReacq s.pass + cnt .wDec s.pass + cnt .bInc s.pass = 0
    ∧ s.st.wait_passengers ≤ s1.st.wait_passengers
    ∧ s1.st.in_passengers ≤ s.st.in_passengers
    ∧ s1.admitted = s.admitted := by
  have hh := hand_reach h
  have h1 := hh.one
  rw [draining_hsA hd] at h1
  refine ⟨by omega, ?_⟩
  cases a with
  | call n =>
    simp [step, draining_not_callable hd] at hs
  | train w =>
    simp only [step] at hs
    unfold trainStep at hs
    split at hs <;> rename_i ht <;> rw [ht] at hd <;> simp [draining] at hd <;>
      (try split at hs) <;> simp only [Option.some.injEq, reduceCtorEq] at hs <;>
      subst hs <;> simp
  | pass i =>
    simp only [step] at hs
    split at hs
    · rename_i p hi
      have hpos := cnt_pos hi
      unfold passStep at hs
      split at hs <;> rename_i hpc <;> rw [hpc] at hpos <;> (try split at hs) <;>
        simp only [Option.some.injEq, reduceCtorEq] at hs <;> subst hs <;>
        simp <;> omega
    · simp at hs
  | spuriousP i =>
    simp only [step] at hs
    split at hs <;> simp at hs
  | spuriousT => simp [step] at hs

theorem no_admission_during_drain_witness :
    cnt .wReacq drainState.pass + cnt .wDec drainState.pass
        + cnt .bInc drainState.pass = 0
    ∧ drainState.st.wait_passengers ≤ drainNext.st.wait_passengers
    ∧ drainNext.st.in_passengers ≤ drainState.st.in_passengers
    ∧ drainNext.admitted = drainState.admitted :=
  no_admission_during_drain drainState drainNext (.pass 0) drain_reach
    (by decide) (by decide)

/-- C10: the single-shot waits are safe only without spurious wakeups.  When a
condition wait may return without a signal, there is an execution from the
initialised station in which a passenger completes `station_wait_for_train`
(moving from `wait_passengers` to `in_passengers`) although no
`station_load_train` call was ever made.  When waits return only on a signal
or broadcast, in every reachable state a passenger that is between its
wake-up and the end of `station_wait_for_train` has an active
`station_load_train` call beside it, and the call is still active after the
passenger's next statement (in particular after its last one, line 72). -/
theorem spurious_wakeup_admits_without_train :
    run true (initState 1) spuriousTrace
        = some { st := { wait_passengers := 0, in_passengers := 1, lock := false },
                 train := .idle,
                 pass := [{ pc := .boarding, moves := 1 }],
                 seats := 0, admitted := 1 }
    ∧ (∀ s, Reach false s → ∀ i p, s.pass[i]? = some p → admitting p.pc = true →
        callable s.train = false
        ∧ ∀ s1, step false s (.pass i) = some s1 → callable s1.train = false) := by
  refine ⟨by decide, ?_⟩
  intro s h i p hi ha
  have hh := hand_reach h
  have h1 := hh.one
  have h2 := cnt_admitting (List.getElem?_mem hi) ha
  have hc : callable s.train = false := hsA_not_callable (by omega)
  refine ⟨hc, ?_⟩
  intro s1 hs
  simp only [step, hi] at hs
  unfold passStep at hs
  split at hs <;> (try split at hs) <;>
    simp only [Option.some.injEq, reduceCtorEq] at hs <;> subst hs <;>
    simp [hc, callable_wakeSeated, callable_wakeFull]

theorem spurious_wakeup_admits_without_train_witness :
    callable midState.train = false :=
  (spurious_wakeup_admits_without_train.2 midState mid_reach 0
    { pc := .bInc, moves := 0 } rfl rfl).1

end TrainStation
